import Mathlib

/-!
Shallow embedding of `server/enterprise/message_export/actiance_export/actiance_export.go`
(package `actiance_export`) and proofs about its transcript-assembly behaviour.

Modelling conventions:
* Go `int64` timestamps and counts become `Int` (the code only compares and copies them).
* Go pointer fields that the code tests for `nil` before dereferencing become `Option`;
  pointer fields the code dereferences unconditionally become plain values.
* External collaborators (the record store, `encoding/json`, the file backends, and the
  `common_export` package, which is not part of the sources) are passed in as function
  parameters or modelled from the spec where noted.
* Go maps become association lists with lookup/insert/erase helpers; the unspecified
  iteration order of a Go `map` is modelled by an explicit enumeration parameter.
* Writes to the storage backends are recorded in an explicit trace (`WriteOp` list), so
  that "nothing was written" is expressible.
-/

namespace Actiance

/-- Mirrors the fields of `model.MessageExport` that `actiance_export.go` reads.
`PostDeleteAt` and `PostProps` keep their pointer optionality (the code checks them
against `nil`); the remaining pointer fields are dereferenced unconditionally by the
code and are therefore plain values here.  `PreviewId` stands for `post.PreviewID()`. -/
structure MessageExport where
  ChannelId : String
  ChannelName : String
  ChannelDisplayName : String
  ChannelType : String
  PostId : String
  UserId : String
  UserEmail : String
  Username : String
  IsBot : Bool
  PostCreateAt : Int
  PostDeleteAt : Option Int
  PostProps : Option String
  PostMessage : String
  PostFileIds : List String
  PreviewId : String
deriving Repr, DecidableEq

/-- Mirrors the fields of `model.FileInfo` read by the code (`Name`, `Path`, `DeleteAt`).
`DeleteAt` is a plain `int64` in Go; `0` means the file was never deleted. -/
structure FileInfo where
  Name : String
  Path : String
  DeleteAt : Int
deriving Repr, DecidableEq

/-- Model of `model.AppError` as built by this file: the i18n id passed to
`model.NewAppError` plus the wrapped cause (`.Wrap(err)`). Store / backend errors are
modelled as their message strings. -/
structure AppError where
  id : String
  cause : String
deriving Repr, DecidableEq

/-- `model.PostPropsDeleteBy`: the "deleted-by" marker key looked up in a post's
properties (constant of the external `model` package). -/
def PostPropsDeleteBy : String := "deleteBy"

def XMLNS : String := "http://www.w3.org/2001/XMLSchema-instance"

def ActianceExportFilename : String := "actiance_export.xml"

def ActianceWarningFilename : String := "warning.txt"

/-- Modelled from the spec: `common_export.MissingFileMessage`, the reason text of a
warning line (the `common_export` package is not among the sources; only the
`"Warning:<reason> - <path>"` shape matters here). -/
def MissingFileMessage : String := "File missing for post; cannot copy file to archive"

/-- The `ParticipantEntered` element (struct `JoinExport`). -/
structure JoinExport where
  UserEmail : String
  UserType : String
  JoinTime : Int
  CorporateEmailID : String
deriving Repr, DecidableEq

/-- The `ParticipantLeft` element (struct `LeaveExport`). -/
structure LeaveExport where
  UserEmail : String
  UserType : String
  LeaveTime : Int
  CorporateEmailID : String
deriving Repr, DecidableEq

/-- The `Message` element (struct `PostExport`). -/
structure PostExport where
  UserEmail : String
  UserType : String
  PostTime : Int
  Message : String
  PreviewsPost : String
deriving Repr, DecidableEq

/-- The `FileTransferStarted` element (struct `FileUploadStartExport`). -/
structure FileUploadStartExport where
  UserEmail : String
  UploadStartTime : Int
  Filename : String
  FilePath : String
deriving Repr, DecidableEq

/-- The `FileTransferEnded` element (struct `FileUploadStopExport`). -/
structure FileUploadStopExport where
  UserEmail : String
  UploadStopTime : Int
  Filename : String
  FilePath : String
  Status : String
deriving Repr, DecidableEq

/-- One entry of the `[]any` slice `elementsByChannel[channelId]` / `ChannelExport.Elements`:
the code only ever appends `*PostExport`, `*FileUploadStartExport` and
`*FileUploadStopExport` values to it. -/
inductive ExportElement where
  | post (p : PostExport)
  | uploadStart (u : FileUploadStartExport)
  | uploadStop (u : FileUploadStopExport)
deriving Repr, DecidableEq

/-- The `Conversation` element (struct `ChannelExport`), fields in source order. -/
structure ChannelExport where
  Perspective : String
  ChannelId : String
  RoomId : String
  StartTime : Int
  JoinEvents : List JoinExport
  Elements : List ExportElement
  UploadStarts : List FileUploadStartExport
  UploadStops : List FileUploadStopExport
  LeaveEvents : List LeaveExport
  EndTime : Int
deriving Repr, DecidableEq

/-- The root `FileDump` element (struct `RootNode`). -/
structure RootNode where
  XMLNS : String
  Channels : List ChannelExport
deriving Repr, DecidableEq

/-! ### Association lists standing in for Go maps -/

/-- Lookup in an association list: Go map indexing `m[k]` (first matching key). -/
def alistLookup {β : Type} : List (String × β) → String → Option β
  | [], _ => none
  | p :: rest, k => if p.1 == k then some p.2 else alistLookup rest k

/-- Insert-or-replace: Go map assignment `m[k] = v`. -/
def alistInsert {β : Type} : List (String × β) → String → β → List (String × β)
  | [], k, v => [(k, v)]
  | p :: rest, k, v => if p.1 == k then (k, v) :: rest else p :: alistInsert rest k v

/-- Key removal: Go `delete(m, k)`. -/
def alistErase {β : Type} : List (String × β) → String → List (String × β)
  | [], _ => []
  | p :: rest, k => if p.1 == k then alistErase rest k else p :: alistErase rest k

/-- The key list of an association list. -/
def alistKeys {β : Type} (m : List (String × β)) : List String := m.map Prod.fst

/-! ### Types of the `common_export` package (not among the sources) that flow through
the code: only the fields read by `actiance_export.go` are modelled. -/

/-- `common_export.ChannelMember` (fields assigned at lines 149-154). -/
structure ChannelMember where
  Email : String
  UserId : String
  IsBot : Bool
  Username : String
deriving Repr, DecidableEq

/-- `common_export.ChannelMembers`: map from user id to member snapshot. -/
def ChannelMembers : Type := List (String × ChannelMember)

/-- `common_export.MetadataChannel` (fields read at lines 240-247 plus the counts the
accumulator maintains). -/
structure MetadataChannel where
  ChannelId : String
  ChannelName : String
  ChannelDisplayName : String
  ChannelType : String
  StartTime : Int
  EndTime : Int
  MessagesCount : Int
  AttachmentsCount : Int
deriving Repr, DecidableEq

/-- `model.ChannelMemberHistoryResult` rows returned by
`ChannelMemberHistory().GetUsersInChannelDuring`; the code only passes them through to
`common_export.GetJoinsAndLeavesForChannel`, so the fields are those named by the spec
(entry time, optional exit time, user id). -/
structure ChannelMemberHistoryRow where
  UserId : String
  JoinTime : Int
  LeaveTime : Option Int
deriving Repr, DecidableEq

/-- One join produced by `common_export.GetJoinsAndLeavesForChannel`: the code reads
`.Email`, `.Datetime` and `.IsBot` of each element (lines 258-275). -/
structure JoinInfo where
  Email : String
  Datetime : Int
  IsBot : Bool
deriving Repr, DecidableEq

/-- One leave produced by `common_export.GetJoinsAndLeavesForChannel`: the code reads
`.Email`, `.Datetime` and `.IsBot` of each element (lines 277-291). -/
structure LeaveInfo where
  Email : String
  Datetime : Int
  IsBot : Bool
deriving Repr, DecidableEq

/-- Modelled from the spec: `common_export.ChannelTypeDisplayName`, the
channel-type label used in the room id `"<channel-type-label> - <channel-name> -
<channel-id>"`; the mapping itself is not given by the sources or needed by any claim,
so the type string is used as its own label. -/
def channelTypeDisplayName (channelType : String) : String := channelType

/-! ### Record classifier (lines 117-193) -/

/-- Mirrors `postToExportEntry` (lines 181-193).  The Go parameter `createTime *int64`
is received already dereferenced: every call site passes a pointer it has established
to be non-nil. -/
def postToExportEntry (post : MessageExport) (createTime : Int) (message : String) : PostExport :=
  { UserEmail := post.UserEmail
    UserType := if post.IsBot then "bot" else "user"
    PostTime := createTime
    Message := message
    PreviewsPost := post.PreviewId }

/-- Mirrors lines 122-132 of `ActianceExport`: the content events appended to
`elementsByChannel[*post.ChannelId]` for one record — the message body itself, plus a
synthetic "delete " entry when the record has a strictly positive deletion timestamp
and its properties blob unmarshals to a mapping containing `PostPropsDeleteBy`.
`parseProps` stands for `json.Unmarshal` into `map[string]any` (external library):
`none` models an unmarshal error, `some keys` the key set of the parsed mapping.
No branch produces an error: an unparseable blob just skips the synthetic entry. -/
def classifyPost (parseProps : String → Option (List String)) (post : MessageExport) :
    List ExportElement :=
  let base := [ExportElement.post (postToExportEntry post post.PostCreateAt post.PostMessage)]
  match post.PostDeleteAt with
  | none => base
  | some d =>
    if d > 0 then
      match post.PostProps with
      | none => base
      | some blob =>
        match parseProps blob with
        | none => base
        | some keys =>
          if PostPropsDeleteBy ∈ keys then
            base ++ [ExportElement.post (postToExportEntry post d ("delete " ++ post.PostMessage))]
          else base
    else base

/-! ### Attachment entries (`postToAttachmentsEntries`, lines 195-236) -/

/-- The `FileUploadStartExport` built for one attachment (lines 214-219). -/
def startEntry (post : MessageExport) (fileInfo : FileInfo) : FileUploadStartExport :=
  { UserEmail := post.UserEmail
    Filename := fileInfo.Name
    FilePath := fileInfo.Path
    UploadStartTime := post.PostCreateAt }

/-- The `FileUploadStopExport` built for one attachment (lines 221-227). -/
def stopEntry (post : MessageExport) (fileInfo : FileInfo) : FileUploadStopExport :=
  { UserEmail := post.UserEmail
    Filename := fileInfo.Name
    FilePath := fileInfo.Path
    UploadStopTime := post.PostCreateAt
    Status := "Completed" }

/-- The optional "delete <file path>" entry for one attachment (lines 229-231):
produced exactly when `fileInfo.DeleteAt > 0 && post.PostDeleteAt != nil`, at the
dereferenced `*post.PostDeleteAt`. -/
def deleteEntry (post : MessageExport) (fileInfo : FileInfo) : Option ExportElement :=
  if fileInfo.DeleteAt > 0 then
    match post.PostDeleteAt with
    | some d => some (ExportElement.post (postToExportEntry post d ("delete " ++ fileInfo.Path)))
    | none => none
  else none

/-- The four slices accumulated by the loop of `postToAttachmentsEntries`. -/
structure AttachmentEntries where
  startUploads : List ExportElement
  stopUploads : List ExportElement
  uploadedFiles : List FileInfo
  deleteFileMessages : List ExportElement
deriving Repr, DecidableEq

/-- One iteration of the `for _, fileInfo := range fileInfos` loop (lines 211-234). -/
def attachmentStep (post : MessageExport) (acc : AttachmentEntries) (fileInfo : FileInfo) :
    AttachmentEntries :=
  let acc := { acc with startUploads := acc.startUploads ++ [ExportElement.uploadStart (startEntry post fileInfo)] }
  let acc := { acc with stopUploads := acc.stopUploads ++ [ExportElement.uploadStop (stopEntry post fileInfo)] }
  let acc :=
    match deleteEntry post fileInfo with
    | some e => { acc with deleteFileMessages := acc.deleteFileMessages ++ [e] }
    | none => acc
  { acc with uploadedFiles := acc.uploadedFiles ++ [fileInfo] }

/-- Mirrors `postToAttachmentsEntries` (lines 195-236).  `getForPost` stands for the
external store call `db.FileInfo().GetForPost(*post.PostId, true, true, false)`;
its error is wrapped into the `AppError` of line 203. -/
def postToAttachmentsEntries (getForPost : String → Except String (List FileInfo))
    (post : MessageExport) : Except AppError AttachmentEntries :=
  if post.PostFileIds.length = 0 then
    .ok ⟨[], [], [], []⟩
  else
    match getForPost post.PostId with
    | .error cause => .error ⟨"ent.message_export.actiance_export.get_attachment_error", cause⟩
    | .ok fileInfos => .ok (fileInfos.foldl (attachmentStep post) ⟨[], [], [], []⟩)

/-- Closed form of the attachment loop: each accumulator slice is an independent
map / filterMap over the fetched file infos. -/
theorem attachmentLoop_eq (post : MessageExport) (l : List FileInfo) (acc : AttachmentEntries) :
    l.foldl (attachmentStep post) acc =
      { startUploads := acc.startUploads ++ l.map (fun fi => ExportElement.uploadStart (startEntry post fi))
        stopUploads := acc.stopUploads ++ l.map (fun fi => ExportElement.uploadStop (stopEntry post fi))
        uploadedFiles := acc.uploadedFiles ++ l
        deleteFileMessages := acc.deleteFileMessages ++ l.filterMap (deleteEntry post) } := by
  induction l generalizing acc with
  | nil => simp
  | cons fi rest ih =>
    simp only [List.foldl_cons, ih]
    cases acc
    simp only [attachmentStep]
    cases h : deleteEntry post fi <;> simp [h, List.filterMap_cons]

/-! ### Membership reconstruction (`buildChannelExport`, lines 238-311) -/

/-- The local struct `StillJoinedInfo` of `buildChannelExport` (lines 253-256).
The Go field `Type` is rendered `UserType` because `Type` is reserved in Lean. -/
structure StillJoinedInfo where
  Time : Int
  UserType : String
deriving Repr, DecidableEq

/-- The `stillJoined` Go map, as an association list keyed by user email. -/
def SJMap : Type := List (String × StillJoinedInfo)

/-- The body of the joins loop acting on `stillJoined` (lines 269-275): overwrite when
the user has no entry yet or this join is strictly later than the stored one. -/
def processJoin (stillJoined : SJMap) (join : JoinInfo) : SJMap :=
  let userType := if join.IsBot then "bot" else "user"
  match alistLookup stillJoined join.Email with
  | none => alistInsert stillJoined join.Email ⟨join.Datetime, userType⟩
  | some value =>
    if join.Datetime > value.Time then
      alistInsert stillJoined join.Email ⟨join.Datetime, userType⟩
    else stillJoined

/-- The body of the leaves loop acting on `stillJoined` (lines 288-290): Go map
indexing of an absent key yields the zero value `StillJoinedInfo{Time: 0, Type: ""}`,
hence the `getD ⟨0, ""⟩`; `delete` of an absent key is a no-op, as is `alistErase`. -/
def processLeave (stillJoined : SJMap) (leave : LeaveInfo) : SJMap :=
  if leave.Datetime > ((alistLookup stillJoined leave.Email).getD ⟨0, ""⟩).Time then
    alistErase stillJoined leave.Email
  else stillJoined

/-- The `JoinExport` appended for one join (lines 263-268). -/
def joinToExport (join : JoinInfo) : JoinExport :=
  { JoinTime := join.Datetime
    UserEmail := join.Email
    UserType := if join.IsBot then "bot" else "user"
    CorporateEmailID := join.Email }

/-- The `LeaveExport` appended for one explicit leave (lines 282-287). -/
def leaveToExport (leave : LeaveInfo) : LeaveExport :=
  { LeaveTime := leave.Datetime
    UserEmail := leave.Email
    UserType := if leave.IsBot then "bot" else "user"
    CorporateEmailID := leave.Email }

/-- The joins loop (lines 258-276): accumulates `JoinEvents` and folds `stillJoined`. -/
def joinsPass (joins : List JoinInfo) : List JoinExport × SJMap :=
  joins.foldl (fun acc join => (acc.1 ++ [joinToExport join], processJoin acc.2 join)) ([], [])

/-- The leaves loop (lines 277-291): accumulates `LeaveEvents` and folds `stillJoined`. -/
def leavesPass (stillJoined : SJMap) (leaves : List LeaveInfo) : List LeaveExport × SJMap :=
  leaves.foldl (fun acc leave => (acc.1 ++ [leaveToExport leave], processLeave acc.2 leave))
    ([], stillJoined)

/-- The `stillJoined` map after both loops. -/
def stillJoinedFinal (joins : List JoinInfo) (leaves : List LeaveInfo) : SJMap :=
  (leavesPass (joinsPass joins).2 leaves).2

/-- The leave events synthesized at window end for the users still in `stillJoined`
(lines 293-300), given the order in which Go's `for email := range stillJoined`
happens to enumerate the keys.  Indexing an email of the map yields its stored info,
modelled with the Go zero value as default exactly like `processLeave`. -/
def synthesizedLeaves (order : List String) (stillJoined : SJMap) (endTime : Int) :
    List LeaveExport :=
  order.map fun email =>
    { LeaveTime := endTime
      UserEmail := email
      UserType := ((alistLookup stillJoined email).getD ⟨0, ""⟩).UserType
      CorporateEmailID := email }

/-- `order` is a possible Go map-range enumeration of `m`: the keys, each exactly once,
in some order. -/
def ValidIter (order : List String) (m : SJMap) : Prop := order.Perm (alistKeys m)

/-- The comparison closure passed to `sort.Slice` (lines 302-307), verbatim: a strict
lexicographic "less" on (leave time, user email). -/
def leaveLess (a b : LeaveExport) : Prop :=
  if a.LeaveTime = b.LeaveTime then a.UserEmail < b.UserEmail else a.LeaveTime < b.LeaveTime

/-- The non-strict order induced by `leaveLess`; `sort.Slice` postcondition is that the
result is sorted with respect to it (see `leaveLE_iff_not_leaveLess`). -/
def leaveLE (a b : LeaveExport) : Prop :=
  a.LeaveTime < b.LeaveTime ∨ (a.LeaveTime = b.LeaveTime ∧ a.UserEmail ≤ b.UserEmail)

instance : DecidableRel leaveLess := fun a b =>
  inferInstanceAs (Decidable (if a.LeaveTime = b.LeaveTime then a.UserEmail < b.UserEmail else a.LeaveTime < b.LeaveTime))

instance : DecidableRel leaveLE := fun a b =>
  inferInstanceAs (Decidable (a.LeaveTime < b.LeaveTime ∨ (a.LeaveTime = b.LeaveTime ∧ a.UserEmail ≤ b.UserEmail)))

/-- `leaveLE` is exactly the complement-converse of the Go comparator: being sorted by
`leaveLE` is the postcondition `!less(j, i)` for `i ≤ j` that `sort.Slice` guarantees. -/
theorem leaveLE_iff_not_leaveLess (a b : LeaveExport) : leaveLE a b ↔ ¬ leaveLess b a := by
  unfold leaveLE leaveLess
  by_cases heq : a.LeaveTime = b.LeaveTime
  · simp [heq, eq_comm, not_lt, lt_irrefl]
  · have hne : ¬ b.LeaveTime = a.LeaveTime := fun h => heq h.symm
    simp only [heq, false_and, or_false, if_neg hne, not_lt]
    constructor
    · intro h
      exact le_of_lt h
    · intro h
      exact lt_of_le_of_ne h heq

instance : IsTotal LeaveExport leaveLE where
  total a b := by
    unfold leaveLE
    rcases lt_trichotomy a.LeaveTime b.LeaveTime with h | h | h
    · exact Or.inl (Or.inl h)
    · rcases le_total a.UserEmail b.UserEmail with he | he
      · exact Or.inl (Or.inr ⟨h, he⟩)
      · exact Or.inr (Or.inr ⟨h.symm, he⟩)
    · exact Or.inr (Or.inl h)

instance : IsTrans LeaveExport leaveLE where
  trans a b c hab hbc := by
    unfold leaveLE at *
    rcases hab with h1 | ⟨h1, e1⟩ <;> rcases hbc with h2 | ⟨h2, e2⟩
    · exact Or.inl (h1.trans h2)
    · exact Or.inl (h2 ▸ h1)
    · exact Or.inl (h1 ▸ h2)
    · exact Or.inr ⟨h1.trans h2, e1.trans e2⟩

/-- Strict lexicographic order on the sorting key; antisymmetric because irreflexive. -/
def leaveKeyLT (a b : LeaveExport) : Prop :=
  a.LeaveTime < b.LeaveTime ∨ (a.LeaveTime = b.LeaveTime ∧ a.UserEmail < b.UserEmail)

instance : IsAntisymm LeaveExport leaveKeyLT where
  antisymm a b hab hba := by
    exfalso
    rcases hab with h1 | ⟨h1, e1⟩ <;> rcases hba with h2 | ⟨h2, e2⟩
    · exact absurd (h1.trans h2) (lt_irrefl _)
    · exact absurd h1 (h2 ▸ lt_irrefl _)
    · exact absurd h2 (h1 ▸ lt_irrefl _)
    · exact absurd (e1.trans e2) (lt_irrefl _)

/-- Mirrors `buildChannelExport` (lines 238-311).
* `sjOrder` models the unspecified enumeration order of `for email := range stillJoined`.
* `getHistory` stands for `db.ChannelMemberHistory().GetUsersInChannelDuring`.
* `getJoinsAndLeaves` stands for `common_export.GetJoinsAndLeavesForChannel` (package
  not among the sources; its results are inputs here).
* `sort.Slice` with the strict comparator of lines 302-307 is modelled as a sort by its
  induced non-strict order `leaveLE` (see `leaveLE_iff_not_leaveLess`). -/
def buildChannelExport (sjOrder : SJMap → List String)
    (getHistory : Int → Int → String → Except String (List ChannelMemberHistoryRow))
    (getJoinsAndLeaves :
      Int → Int → List ChannelMemberHistoryRow → ChannelMembers → List JoinInfo × List LeaveInfo)
    (channel : MetadataChannel) (members : ChannelMembers) (elements : List ExportElement) :
    Except AppError ChannelExport :=
  match getHistory channel.StartTime channel.EndTime channel.ChannelId with
  | .error cause => .error ⟨"ent.get_users_in_channel_during", cause⟩
  | .ok channelMembersHistory =>
    let jl := getJoinsAndLeaves channel.StartTime channel.EndTime channelMembersHistory members
    let joinEvents := (joinsPass jl.1).1
    let stillJoined := stillJoinedFinal jl.1 jl.2
    let leaveEvents :=
      (leavesPass (joinsPass jl.1).2 jl.2).1 ++
        synthesizedLeaves (sjOrder stillJoined) stillJoined channel.EndTime
    .ok
      { Perspective := channel.ChannelDisplayName
        ChannelId := channel.ChannelId
        RoomId :=
          channelTypeDisplayName channel.ChannelType ++ " - " ++ channel.ChannelName ++ " - " ++
            channel.ChannelId
        StartTime := channel.StartTime
        JoinEvents := joinEvents
        Elements := elements
        UploadStarts := []
        UploadStops := []
        LeaveEvents := List.insertionSort leaveLE leaveEvents
        EndTime := channel.EndTime }

/-! ### Delivery (`writeExport`, lines 313-355) -/

/-- A successful write performed on the export backend, recorded in an explicit trace so
that "nothing was written" is a provable statement.  The main document's payload is the
`RootNode` itself: its XML encoding is outside the modelled core. -/
inductive WriteOp where
  | mainDoc (root : RootNode) (path : String)
  | attachmentCopy (destPath : String)
  | warningManifest (content : String) (path : String)
deriving Repr, DecidableEq

/-- A file backend, reduced to the success/failure behaviour the code observes:
whether `WriteFile`/`TryWriteFileContext` to a path succeeds, and whether `Reader` on a
path succeeds. -/
structure FileBackend where
  writeOk : String → Bool
  readOk : String → Bool

/-- Model of Go `path.Join` for the joins performed here (directory ++ relative path);
path cleaning is irrelevant to the claims. -/
def pathJoin (dir p : String) : String := dir ++ "/" ++ p

/-- The warning line recorded for an unreadable attachment (line 335). -/
def warningLine (filePath : String) : String :=
  "Warning:" ++ MissingFileMessage ++ " - " ++ filePath

/-- The `for _, fileInfo := range uploadedFiles` loop of `writeExport` (lines 330-347):
an unreadable attachment adds a warning line and the loop continues; a failed copy of a
successfully opened attachment returns immediately with the wrapped error (and with the
Go named return `warningCount` still `0`). -/
def copyFiles (exportBackend fileAttachmentBackend : FileBackend) (exportDirectory : String) :
    List FileInfo → List String → List WriteOp → (List String × List WriteOp) × Option AppError
  | [], missingFiles, writes => ((missingFiles, writes), none)
  | fileInfo :: rest, missingFiles, writes =>
    if fileAttachmentBackend.readOk fileInfo.Path then
      let destPath := pathJoin exportDirectory fileInfo.Path
      if exportBackend.writeOk destPath then
        copyFiles exportBackend fileAttachmentBackend exportDirectory rest missingFiles
          (writes ++ [WriteOp.attachmentCopy destPath])
      else
        ((missingFiles, writes), some ⟨"ent.actiance.export.write_file.appError", "copy"⟩)
    else
      copyFiles exportBackend fileAttachmentBackend exportDirectory rest
        (missingFiles ++ [warningLine fileInfo.Path]) writes

/-- Mirrors `writeExport` (lines 313-355).  `marshalOk` models the (never-failing in
practice, but handled) XML encoder outcome of lines 318-323.  The returned pair is Go's
`(warningCount, appErr)`; the trace lists the successful backend writes in order. -/
def writeExport (marshalOk : Bool) (exportBackend fileAttachmentBackend : FileBackend)
    (root : RootNode) (uploadedFiles : List FileInfo) (exportDirectory : String) :
    (Int × Option AppError) × List WriteOp :=
  if marshalOk then
    let docPath := pathJoin exportDirectory ActianceExportFilename
    if exportBackend.writeOk docPath then
      match copyFiles exportBackend fileAttachmentBackend exportDirectory uploadedFiles []
          [WriteOp.mainDoc root docPath] with
      | ((_, writes), some e) => ((0, some e), writes)
      | ((missingFiles, writes), none) =>
        let warningCount : Int := missingFiles.length
        if warningCount > 0 then
          let manifestPath := pathJoin exportDirectory ActianceWarningFilename
          if exportBackend.writeOk manifestPath then
            ((warningCount, none),
              writes ++ [WriteOp.warningManifest (String.intercalate "\n" missingFiles) manifestPath])
          else
            ((warningCount, some ⟨"ent.actiance.export.write_file.appError", "manifest"⟩), writes)
        else ((warningCount, none), writes)
    else ((0, some ⟨"ent.actiance.export.write_file.appError", "write"⟩), [])
  else ((0, some ⟨"ent.actiance.export.marshalToXml.appError", "marshal"⟩), [])

/-! ### The single input pass and job assembly (`ActianceExport`, lines 104-179) -/

/-- The accumulators of the `for _, post := range posts` loop (lines 106-115):
`elementsByChannel` is the Go map from channel id to its `[]any` element slice,
modelled as a total function that is `[]` outside the touched channels. -/
structure PassState where
  elementsByChannel : String → List ExportElement
  allUploadedFiles : List FileInfo
  metadataChannels : List (String × MetadataChannel)
  membersByChannel : List (String × ChannelMembers)

/-- `elementsByChannel[c] = append(elementsByChannel[c], es...)`. -/
def appendElements (m : String → List ExportElement) (c : String) (es : List ExportElement) :
    String → List ExportElement :=
  fun c2 => if c2 == c then m c2 ++ es else m c2

/-- Modelled from the spec: `common_export.Metadata.Update` (package not among the
sources) — the first record of a channel initialises its metadata (identity fields and
window start from that record), and every record updates the window end, the message
count, and the count of attachments actually resolved for the record. -/
def metadataUpdate (channels : List (String × MetadataChannel)) (post : MessageExport)
    (attachments : Int) : List (String × MetadataChannel) :=
  match alistLookup channels post.ChannelId with
  | none =>
    channels ++
      [(post.ChannelId,
        { ChannelId := post.ChannelId
          ChannelName := post.ChannelName
          ChannelDisplayName := post.ChannelDisplayName
          ChannelType := post.ChannelType
          StartTime := post.PostCreateAt
          EndTime := post.PostCreateAt
          MessagesCount := 1
          AttachmentsCount := attachments })]
  | some mc =>
    alistInsert channels post.ChannelId
      { mc with
        EndTime := post.PostCreateAt
        MessagesCount := mc.MessagesCount + 1
        AttachmentsCount := mc.AttachmentsCount + attachments }

/-- Lines 146-154: record the author as a member snapshot of the post's channel. -/
def membersUpdate (membersByChannel : List (String × ChannelMembers)) (post : MessageExport) :
    List (String × ChannelMembers) :=
  let current := (alistLookup membersByChannel post.ChannelId).getD []
  alistInsert membersByChannel post.ChannelId
    (alistInsert current post.UserId
      { Email := post.UserEmail
        UserId := post.UserId
        IsBot := post.IsBot
        Username := post.Username })

/-- The loop body for one non-nil post (lines 122-154). -/
def processPost (parseProps : String → Option (List String))
    (getForPost : String → Except String (List FileInfo)) (st : PassState)
    (post : MessageExport) : Except AppError PassState :=
  let st1 :=
    { st with
      elementsByChannel :=
        appendElements st.elementsByChannel post.ChannelId (classifyPost parseProps post) }
  match postToAttachmentsEntries getForPost post with
  | .error err => .error err
  | .ok entries =>
    .ok
      { st1 with
        elementsByChannel :=
          appendElements
            (appendElements
              (appendElements st1.elementsByChannel post.ChannelId entries.startUploads)
              post.ChannelId entries.stopUploads)
            post.ChannelId entries.deleteFileMessages
        allUploadedFiles := st1.allUploadedFiles ++ entries.uploadedFiles
        metadataChannels := metadataUpdate st1.metadataChannels post entries.uploadedFiles.length
        membersByChannel := membersUpdate st1.membersByChannel post }

/-- The full input pass (lines 117-155); a `none` entry models a nil post reference,
which is logged and skipped (line 118-121). -/
def runPass (parseProps : String → Option (List String))
    (getForPost : String → Except String (List FileInfo)) :
    List (Option MessageExport) → PassState → Except AppError PassState
  | [], st => .ok st
  | none :: rest, st => runPass parseProps getForPost rest st
  | some post :: rest, st =>
    match processPost parseProps getForPost st post with
    | .error err => .error err
    | .ok st2 => runPass parseProps getForPost rest st2

def initialPassState : PassState :=
  { elementsByChannel := fun _ => []
    allUploadedFiles := []
    metadataChannels := []
    membersByChannel := [] }

/-- The channel loop of lines 159-171.  Go ranges over the `metadata.Channels` map in
unspecified order; the model iterates the accumulated channels in first-seen order (no
claim depends on the document's channel order). -/
def buildChannels (sjOrder : SJMap → List String)
    (getHistory : Int → Int → String → Except String (List ChannelMemberHistoryRow))
    (getJoinsAndLeaves :
      Int → Int → List ChannelMemberHistoryRow → ChannelMembers → List JoinInfo × List LeaveInfo)
    (st : PassState) :
    List (String × MetadataChannel) → List ChannelExport → Except AppError (List ChannelExport)
  | [], acc => .ok acc
  | (_, channel) :: rest, acc =>
    match buildChannelExport sjOrder getHistory getJoinsAndLeaves channel
        ((alistLookup st.membersByChannel channel.ChannelId).getD [])
        (st.elementsByChannel channel.ChannelId) with
    | .error err => .error err
    | .ok channelExport =>
      buildChannels sjOrder getHistory getJoinsAndLeaves st rest (acc ++ [channelExport])

/-- Mirrors `ActianceExport` (lines 104-179): the input pass, the per-channel builds,
then delivery via `writeExport`.  An error from either stage is returned with the Go
named return `warningCount` still `0` and, the stages being pure until `writeExport`,
an empty write trace. -/
def ActianceExport (parseProps : String → Option (List String))
    (getForPost : String → Except String (List FileInfo))
    (getHistory : Int → Int → String → Except String (List ChannelMemberHistoryRow))
    (getJoinsAndLeaves :
      Int → Int → List ChannelMemberHistoryRow → ChannelMembers → List JoinInfo × List LeaveInfo)
    (sjOrder : SJMap → List String) (marshalOk : Bool)
    (exportBackend fileAttachmentBackend : FileBackend) (exportDirectory : String)
    (posts : List (Option MessageExport)) : (Int × Option AppError) × List WriteOp :=
  match runPass parseProps getForPost posts initialPassState with
  | .error err => ((0, some err), [])
  | .ok st =>
    match buildChannels sjOrder getHistory getJoinsAndLeaves st st.metadataChannels [] with
    | .error err => ((0, some err), [])
    | .ok channelExports =>
      writeExport marshalOk exportBackend fileAttachmentBackend
        { XMLNS := XMLNS, Channels := channelExports } st.allUploadedFiles exportDirectory

/-! ### Lemmas about the association-list map operations -/

theorem alistLookup_insert {β : Type} (m : List (String × β)) (k : String) (v : β)
    (k2 : String) :
    alistLookup (alistInsert m k v) k2 = if k2 = k then some v else alistLookup m k2 := by
  induction m with
  | nil =>
    by_cases h : k2 = k
    · subst h; simp [alistInsert, alistLookup]
    · simp [alistInsert, alistLookup, h, Ne.symm h]
  | cons p rest ih =>
    by_cases h : k2 = k
    · subst h
      by_cases hp : p.1 = k2
      · simp [alistInsert, alistLookup, hp]
      · simp [alistInsert, alistLookup, hp, ih]
    · by_cases hp : p.1 = k
      · simp [alistInsert, alistLookup, hp, h, Ne.symm h, hp.symm ▸ Ne.symm h]
      · simp [alistInsert, alistLookup, hp, ih, h]

theorem alistLookup_erase {β : Type} (m : List (String × β)) (k k2 : String) :
    alistLookup (alistErase m k) k2 = if k2 = k then none else alistLookup m k2 := by
  induction m with
  | nil => simp [alistErase, alistLookup]
  | cons p rest ih =>
    by_cases h : k2 = k
    · subst h
      by_cases hp : p.1 = k2
      · simp [alistErase, alistLookup, hp, ih]
      · simp [alistErase, alistLookup, hp, ih]
    · by_cases hp : p.1 = k
      · simp [alistErase, alistLookup, hp, ih, h, Ne.symm h, hp.symm ▸ Ne.symm h]
      · simp [alistErase, alistLookup, hp, ih, h]

theorem mem_alistKeys_iff {β : Type} (m : List (String × β)) (k : String) :
    k ∈ alistKeys m ↔ (alistLookup m k).isSome := by
  induction m with
  | nil => simp [alistKeys, alistLookup]
  | cons p rest ih =>
    simp only [alistKeys, List.map_cons, List.mem_cons, alistLookup, beq_iff_eq]
    by_cases hp : p.1 = k
    · simp [hp, eq_comm]
    · simp only [if_neg hp]
      rw [← alistKeys, ← ih]
      constructor
      · rintro (h | h)
        · exact absurd h.symm hp
        · exact h
      · exact Or.inr

theorem mem_alistKeys_insert {β : Type} (m : List (String × β)) (k : String) (v : β)
    (a : String) (h : a ∈ alistKeys (alistInsert m k v)) : a ∈ alistKeys m ∨ a = k := by
  induction m with
  | nil => simpa [alistInsert, alistKeys] using h
  | cons p rest ih =>
    simp only [alistInsert, beq_iff_eq] at h
    by_cases hp : p.1 = k
    · rw [if_pos hp] at h
      simp only [alistKeys, List.map_cons, List.mem_cons] at h ⊢
      rcases h with h | h
      · exact Or.inr h
      · exact Or.inl (Or.inr h)
    · rw [if_neg hp] at h
      simp only [alistKeys, List.map_cons, List.mem_cons] at h ⊢
      rcases h with h | h
      · exact Or.inl (Or.inl h)
      · rcases ih h with h2 | h2
        · exact Or.inl (Or.inr h2)
        · exact Or.inr h2

theorem alistKeys_insert_nodup {β : Type} (m : List (String × β)) (k : String) (v : β)
    (h : (alistKeys m).Nodup) : (alistKeys (alistInsert m k v)).Nodup := by
  induction m with
  | nil => simp [alistInsert, alistKeys]
  | cons p rest ih =>
    simp only [alistKeys, List.map_cons, List.nodup_cons] at h
    simp only [alistInsert, beq_iff_eq]
    by_cases hp : p.1 = k
    · rw [if_pos hp]
      simp only [alistKeys, List.map_cons, List.nodup_cons]
      exact ⟨hp ▸ h.1, h.2⟩
    · rw [if_neg hp]
      simp only [alistKeys, List.map_cons, List.nodup_cons]
      refine ⟨fun hmem => ?_, ih h.2⟩
      rcases mem_alistKeys_insert rest k v p.1 hmem with h2 | h2
      · exact h.1 h2
      · exact hp h2

theorem alistKeys_erase_sublist {β : Type} (m : List (String × β)) (k : String) :
    (alistKeys (alistErase m k)).Sublist (alistKeys m) := by
  induction m with
  | nil => simp [alistErase, alistKeys]
  | cons p rest ih =>
    simp only [alistErase, beq_iff_eq]
    by_cases hp : p.1 = k
    · rw [if_pos hp]
      exact ih.trans (List.sublist_cons_self _ _)
    · rw [if_neg hp]
      simpa [alistKeys] using ih.cons₂ p.1

theorem alistKeys_erase_nodup {β : Type} (m : List (String × β)) (k : String)
    (h : (alistKeys m).Nodup) : (alistKeys (alistErase m k)).Nodup :=
  h.sublist (alistKeys_erase_sublist m k)

/-! ### Characterisation of the still-joined fold -/

/-- Nodup keys: the invariant every Go map trivially satisfies, maintained by the
association-list model. -/
def sjWF (m : SJMap) : Prop := (alistKeys m).Nodup

theorem processJoin_wf (m : SJMap) (join : JoinInfo) (h : sjWF m) : sjWF (processJoin m join) := by
  unfold processJoin sjWF
  cases alistLookup m join.Email with
  | none => exact alistKeys_insert_nodup m _ _ h
  | some value =>
    by_cases hd : join.Datetime > value.Time
    · simpa [hd] using alistKeys_insert_nodup m _ _ h
    · simpa [hd] using h

theorem processLeave_wf (m : SJMap) (leave : LeaveInfo) (h : sjWF m) :
    sjWF (processLeave m leave) := by
  unfold processLeave sjWF
  split_ifs
  · exact alistKeys_erase_nodup m _ h
  · exact h

theorem foldl_processJoin_wf (joins : List JoinInfo) (m : SJMap) (h : sjWF m) :
    sjWF (joins.foldl processJoin m) := by
  induction joins generalizing m with
  | nil => exact h
  | cons j rest ih => exact ih _ (processJoin_wf m j h)

theorem foldl_processLeave_wf (leaves : List LeaveInfo) (m : SJMap) (h : sjWF m) :
    sjWF (leaves.foldl processLeave m) := by
  induction leaves generalizing m with
  | nil => exact h
  | cons l rest ih => exact ih _ (processLeave_wf m l h)

theorem joinsPass_eq (joins : List JoinInfo) :
    joinsPass joins = (joins.map joinToExport, joins.foldl processJoin []) := by
  unfold joinsPass
  suffices h : ∀ (l : List JoinInfo) (acc : List JoinExport) (m : SJMap),
      l.foldl (fun acc join => (acc.1 ++ [joinToExport join], processJoin acc.2 join)) (acc, m) =
        (acc ++ l.map joinToExport, l.foldl processJoin m) by
    simpa using h joins [] []
  intro l
  induction l with
  | nil => simp
  | cons j rest ih => intro acc m; simp [ih]

theorem leavesPass_eq (stillJoined : SJMap) (leaves : List LeaveInfo) :
    leavesPass stillJoined leaves =
      (leaves.map leaveToExport, leaves.foldl processLeave stillJoined) := by
  unfold leavesPass
  suffices h : ∀ (l : List LeaveInfo) (acc : List LeaveExport) (m : SJMap),
      l.foldl (fun acc leave => (acc.1 ++ [leaveToExport leave], processLeave acc.2 leave)) (acc, m) =
        (acc ++ l.map leaveToExport, l.foldl processLeave m) by
    simpa using h leaves [] stillJoined
  intro l
  induction l with
  | nil => simp
  | cons lv rest ih => intro acc m; simp [ih]

theorem stillJoinedFinal_eq (joins : List JoinInfo) (leaves : List LeaveInfo) :
    stillJoinedFinal joins leaves = leaves.foldl processLeave (joins.foldl processJoin []) := by
  unfold stillJoinedFinal
  rw [joinsPass_eq, leavesPass_eq]

theorem stillJoinedFinal_wf (joins : List JoinInfo) (leaves : List LeaveInfo) :
    sjWF (stillJoinedFinal joins leaves) := by
  rw [stillJoinedFinal_eq]
  exact foldl_processLeave_wf _ _ (foldl_processJoin_wf _ _ (by simp [sjWF, alistKeys]))

theorem sjLookup_processJoin (m : SJMap) (join : JoinInfo) (k : String) :
    alistLookup (processJoin m join) k =
      if k = join.Email then
        match alistLookup m join.Email with
        | none => some ⟨join.Datetime, if join.IsBot then "bot" else "user"⟩
        | some value =>
          if join.Datetime > value.Time then
            some ⟨join.Datetime, if join.IsBot then "bot" else "user"⟩
          else some value
      else alistLookup m k := by
  unfold processJoin
  cases hl : alistLookup m join.Email with
  | none => simp [alistLookup_insert]
  | some value =>
    by_cases hd : join.Datetime > value.Time
    · simp [hd, alistLookup_insert]
    · simp only [if_neg hd]
      by_cases h : k = join.Email
      · simp [h, hl, hd]
      · simp [h]

theorem sjLookup_processLeave (m : SJMap) (leave : LeaveInfo) (k : String) :
    alistLookup (processLeave m leave) k =
      if k = leave.Email ∧
          leave.Datetime > ((alistLookup m leave.Email).getD ⟨0, ""⟩).Time then none
      else alistLookup m k := by
  unfold processLeave
  by_cases hd : leave.Datetime > ((alistLookup m leave.Email).getD ⟨0, ""⟩).Time
  · rw [if_pos hd, alistLookup_erase]
    by_cases h : k = leave.Email
    · simp [h, hd]
    · simp [h, hd]
  · rw [if_neg hd]
    have : ¬ (k = leave.Email ∧
        leave.Datetime > ((alistLookup m leave.Email).getD ⟨0, ""⟩).Time) :=
      fun hc => hd hc.2
    rw [if_neg this]

/-- Claim C1: in the membership reconstruction, (i) a join overwrites the "still
joined" entry of its user exactly when the user has no prior entry or the join is
strictly later, and touches no other user; (ii) a leave removes its user exactly when
its timestamp is strictly greater than the stored join timestamp (the Go zero value
standing in for an absent entry), and touches no other user; (iii) after both loops,
exactly one leave is synthesized per user still in the map — at the window-end
timestamp, carrying the stored (last known) user type — and for no other user. -/
theorem claim_C1 :
    (∀ (m : SJMap) (join : JoinInfo) (k : String),
        alistLookup (processJoin m join) k =
          if k = join.Email then
            match alistLookup m join.Email with
            | none => some ⟨join.Datetime, if join.IsBot then "bot" else "user"⟩
            | some value =>
              if join.Datetime > value.Time then
                some ⟨join.Datetime, if join.IsBot then "bot" else "user"⟩
              else some value
          else alistLookup m k) ∧
    (∀ (m : SJMap) (leave : LeaveInfo) (k : String),
        alistLookup (processLeave m leave) k =
          if k = leave.Email ∧
              leave.Datetime > ((alistLookup m leave.Email).getD ⟨0, ""⟩).Time then none
          else alistLookup m k) ∧
    (∀ (joins : List JoinInfo) (leaves : List LeaveInfo) (endTime : Int)
        (order : List String),
        ValidIter order (stillJoinedFinal joins leaves) →
        ((synthesizedLeaves order (stillJoinedFinal joins leaves) endTime).map
            (fun l => l.UserEmail)).Nodup ∧
        (∀ e : String,
            (e ∈ (synthesizedLeaves order (stillJoinedFinal joins leaves) endTime).map
                (fun l => l.UserEmail)) ↔
              (alistLookup (stillJoinedFinal joins leaves) e).isSome) ∧
        (∀ l ∈ synthesizedLeaves order (stillJoinedFinal joins leaves) endTime,
            l.LeaveTime = endTime ∧ l.CorporateEmailID = l.UserEmail ∧
            ∃ v, alistLookup (stillJoinedFinal joins leaves) l.UserEmail = some v ∧
              l.UserType = v.UserType)) := by
  refine ⟨sjLookup_processJoin, sjLookup_processLeave, ?_⟩
  intro joins leaves endTime order hvalid
  have hwf : sjWF (stillJoinedFinal joins leaves) := stillJoinedFinal_wf joins leaves
  have hemails :
      (synthesizedLeaves order (stillJoinedFinal joins leaves) endTime).map
        (fun l => l.UserEmail) = order := by
    unfold synthesizedLeaves
    rw [List.map_map]
    exact List.map_id order
  refine ⟨?_, ?_, ?_⟩
  · rw [hemails]
    exact hvalid.nodup_iff.mpr hwf
  · intro e
    rw [hemails, ← mem_alistKeys_iff]
    exact hvalid.mem_iff
  · intro l hl
    unfold synthesizedLeaves at hl
    rcases List.mem_map.mp hl with ⟨email, hmem, rfl⟩
    have hkey : email ∈ alistKeys (stillJoinedFinal joins leaves) := hvalid.mem_iff.mp hmem
    have hsome := (mem_alistKeys_iff _ _).mp hkey
    rcases Option.isSome_iff_exists.mp hsome with ⟨v, hv⟩
    exact ⟨rfl, rfl, v, hv, by simp [hv]⟩

/-- Concrete instantiation of the synthesized-leaves part of `claim_C1`. -/
theorem claim_C1_witness :
    ValidIter ["a"] (stillJoinedFinal [⟨"a", 5, false⟩] []) ∧
    (∀ l ∈ synthesizedLeaves ["a"] (stillJoinedFinal [⟨"a", 5, false⟩] []) 9,
        l.LeaveTime = 9 ∧ l.CorporateEmailID = l.UserEmail ∧
        ∃ v, alistLookup (stillJoinedFinal [⟨"a", 5, false⟩] []) l.UserEmail = some v ∧
          l.UserType = v.UserType) :=
  ⟨List.Perm.refl _, (claim_C1.2.2 [⟨"a", 5, false⟩] [] 9 ["a"] (List.Perm.refl _)).2.2⟩

/-! ### Sortedness and determinism of the leave-event list -/

theorem insertionSort_append_left (E : List LeaveExport) {S1 S2 : List LeaveExport}
    (h : List.insertionSort leaveLE S1 = List.insertionSort leaveLE S2) :
    List.insertionSort leaveLE (E ++ S1) = List.insertionSort leaveLE (E ++ S2) := by
  induction E with
  | nil => simpa using h
  | cons x rest ih =>
    simp only [List.cons_append, List.insertionSort]
    exact congrArg (List.orderedInsert leaveLE x) ih

theorem sorted_keyLT_of_sorted_emailNe {S : List LeaveExport} (hs : List.Sorted leaveLE S)
    (hne : S.Pairwise fun a b => a.UserEmail ≠ b.UserEmail) : List.Sorted leaveKeyLT S := by
  refine (hs.and hne).imp ?_
  rintro a b ⟨hle, hab⟩
  rcases hle with h | ⟨h, he⟩
  · exact Or.inl h
  · exact Or.inr ⟨h, lt_of_le_of_ne he hab⟩

/-- Two lists of leave events that are permutations of one another and have pairwise
distinct user emails sort identically: the (timestamp, email) key is then strict, so
the sorted result is unique. -/
theorem insertionSort_eq_of_perm_emailNe {S1 S2 : List LeaveExport} (hperm : S1.Perm S2)
    (hne : S1.Pairwise fun a b => a.UserEmail ≠ b.UserEmail) :
    List.insertionSort leaveLE S1 = List.insertionSort leaveLE S2 := by
  have hne1 : (List.insertionSort leaveLE S1).Pairwise fun a b => a.UserEmail ≠ b.UserEmail :=
    ((List.perm_insertionSort leaveLE S1).pairwise_iff fun h => h.symm).mpr hne
  have hne2 : (List.insertionSort leaveLE S2).Pairwise fun a b => a.UserEmail ≠ b.UserEmail :=
    ((List.perm_insertionSort leaveLE S2).pairwise_iff fun h => h.symm).mpr
      ((hperm.pairwise_iff fun h => h.symm).mp hne)
  have hp : (List.insertionSort leaveLE S1).Perm (List.insertionSort leaveLE S2) :=
    ((List.perm_insertionSort leaveLE S1).trans hperm).trans
      (List.perm_insertionSort leaveLE S2).symm
  exact List.eq_of_perm_of_sorted hp
    (sorted_keyLT_of_sorted_emailNe (List.sorted_insertionSort leaveLE S1) hne1)
    (sorted_keyLT_of_sorted_emailNe (List.sorted_insertionSort leaveLE S2) hne2)

/-- Claim C2: every transcript's final leave-event list is sorted ascending by
(leave timestamp, user email): along the list, an earlier event has a strictly smaller
timestamp, or an equal timestamp and a lexically no-larger email. -/
theorem claim_C2 (sjOrder : SJMap → List String)
    (getHistory : Int → Int → String → Except String (List ChannelMemberHistoryRow))
    (getJoinsAndLeaves :
      Int → Int → List ChannelMemberHistoryRow → ChannelMembers → List JoinInfo × List LeaveInfo)
    (channel : MetadataChannel) (members : ChannelMembers) (elements : List ExportElement)
    (ce : ChannelExport)
    (h : buildChannelExport sjOrder getHistory getJoinsAndLeaves channel members elements =
      .ok ce) :
    List.Sorted leaveLE ce.LeaveEvents := by
  unfold buildChannelExport at h
  cases hh : getHistory channel.StartTime channel.EndTime channel.ChannelId with
  | error cause => rw [hh] at h; cases h
  | ok rows =>
    rw [hh] at h
    simp only [Except.ok.injEq] at h
    subst h
    exact List.sorted_insertionSort leaveLE _

def c2Channel : MetadataChannel :=
  { ChannelId := "cid"
    ChannelName := "cn"
    ChannelDisplayName := "dn"
    ChannelType := "O"
    StartTime := 1
    EndTime := 2
    MessagesCount := 1
    AttachmentsCount := 0 }

def c2Expected : ChannelExport :=
  { Perspective := "dn"
    ChannelId := "cid"
    RoomId := channelTypeDisplayName "O" ++ " - " ++ "cn" ++ " - " ++ "cid"
    StartTime := 1
    JoinEvents := []
    Elements := []
    UploadStarts := []
    UploadStops := []
    LeaveEvents := []
    EndTime := 2 }

/-- Concrete instantiation of `claim_C2` on a channel with no membership events. -/
theorem claim_C2_witness : List.Sorted leaveLE c2Expected.LeaveEvents :=
  claim_C2 (fun m => alistKeys m) (fun _ _ _ => .ok []) (fun _ _ _ _ => ([], []))
    c2Channel [] [] c2Expected rfl

/-- Claim C9: the reconstruction is deterministic — two runs over identical inputs
that only differ in the (unspecified) order in which the still-joined map is
enumerated produce identical `ChannelExport` values, join and leave event lists
included. -/
theorem claim_C9 (sjOrder1 sjOrder2 : SJMap → List String)
    (getHistory : Int → Int → String → Except String (List ChannelMemberHistoryRow))
    (getJoinsAndLeaves :
      Int → Int → List ChannelMemberHistoryRow → ChannelMembers → List JoinInfo × List LeaveInfo)
    (channel : MetadataChannel) (members : ChannelMembers) (elements : List ExportElement)
    (h1 : ∀ m, ValidIter (sjOrder1 m) m) (h2 : ∀ m, ValidIter (sjOrder2 m) m) :
    buildChannelExport sjOrder1 getHistory getJoinsAndLeaves channel members elements =
      buildChannelExport sjOrder2 getHistory getJoinsAndLeaves channel members elements := by
  unfold buildChannelExport
  cases hh : getHistory channel.StartTime channel.EndTime channel.ChannelId with
  | error cause => rfl
  | ok rows =>
    have hwf : sjWF (stillJoinedFinal
        (getJoinsAndLeaves channel.StartTime channel.EndTime rows members).1
        (getJoinsAndLeaves channel.StartTime channel.EndTime rows members).2) :=
      stillJoinedFinal_wf _ _
    have hperm : ((sjOrder1 (stillJoinedFinal
        (getJoinsAndLeaves channel.StartTime channel.EndTime rows members).1
        (getJoinsAndLeaves channel.StartTime channel.EndTime rows members).2))).Perm
          (sjOrder2 (stillJoinedFinal
            (getJoinsAndLeaves channel.StartTime channel.EndTime rows members).1
            (getJoinsAndLeaves channel.StartTime channel.EndTime rows members).2)) :=
      (h1 _).trans (h2 _).symm
    have hnodup : (sjOrder1 (stillJoinedFinal
        (getJoinsAndLeaves channel.StartTime channel.EndTime rows members).1
        (getJoinsAndLeaves channel.StartTime channel.EndTime rows members).2)).Nodup :=
      (h1 _).nodup_iff.mpr hwf
    have hsynthperm := hperm.map (fun email =>
      ({ LeaveTime := channel.EndTime
         UserEmail := email
         UserType := ((alistLookup (stillJoinedFinal
             (getJoinsAndLeaves channel.StartTime channel.EndTime rows members).1
             (getJoinsAndLeaves channel.StartTime channel.EndTime rows members).2)
               email).getD ⟨0, ""⟩).UserType
         CorporateEmailID := email } : LeaveExport))
    have hne : (synthesizedLeaves
        (sjOrder1 (stillJoinedFinal
          (getJoinsAndLeaves channel.StartTime channel.EndTime rows members).1
          (getJoinsAndLeaves channel.StartTime channel.EndTime rows members).2))
        (stillJoinedFinal
          (getJoinsAndLeaves channel.StartTime channel.EndTime rows members).1
          (getJoinsAndLeaves channel.StartTime channel.EndTime rows members).2)
        channel.EndTime).Pairwise fun a b => a.UserEmail ≠ b.UserEmail := by
      unfold synthesizedLeaves
      exact List.pairwise_map.mpr (hnodup.imp fun hab => hab)
    have hsort := insertionSort_eq_of_perm_emailNe hsynthperm hne
    simp only [synthesizedLeaves] at hsort ⊢
    rw [insertionSort_append_left _ hsort]

/-- Concrete instantiation of `claim_C9`: the identity and the reversed enumeration of
the still-joined map yield the same export. -/
theorem claim_C9_witness :
    buildChannelExport (fun m => alistKeys m) (fun _ _ _ => .ok []) (fun _ _ _ _ => ([], []))
        c2Channel [] [] =
      buildChannelExport (fun m => (alistKeys m).reverse) (fun _ _ _ => .ok [])
        (fun _ _ _ _ => ([], [])) c2Channel [] [] :=
  claim_C9 (fun m => alistKeys m) (fun m => (alistKeys m).reverse) (fun _ _ _ => .ok [])
    (fun _ _ _ _ => ([], [])) c2Channel [] []
    (fun _ => List.Perm.refl _) (fun m => (alistKeys m).reverse_perm)

/-! ### Event order within a transcript (claim C3) -/

/-- One item of a conversation's serialized event sequence.  The XML encoder emits the
fields of `ChannelExport` in declaration order, so the sequence is: join events,
the `Elements` slice, the (never-populated) `UploadStarts` and `UploadStops` slices,
then leave events. -/
inductive TranscriptItem where
  | joined (j : JoinExport)
  | element (e : ExportElement)
  | uploadStart (u : FileUploadStartExport)
  | uploadStop (u : FileUploadStopExport)
  | left (l : LeaveExport)
deriving Repr, DecidableEq

/-- The serialized event order of one `Conversation` element, following the field
order of the `ChannelExport` struct (lines 41-53). -/
def eventSequence (ce : ChannelExport) : List TranscriptItem :=
  ce.JoinEvents.map TranscriptItem.joined ++ ce.Elements.map TranscriptItem.element ++
    ce.UploadStarts.map TranscriptItem.uploadStart ++
    ce.UploadStops.map TranscriptItem.uploadStop ++ ce.LeaveEvents.map TranscriptItem.left

/-- All elements the input pass appends to `elementsByChannel[*post.ChannelId]` for one
record, in order: the classifier entries (lines 122-132), then the attachment start,
stop and delete entries (lines 138-140). -/
def postElements (parseProps : String → Option (List String))
    (getForPost : String → Except String (List FileInfo)) (post : MessageExport) :
    List ExportElement :=
  classifyPost parseProps post ++
    match postToAttachmentsEntries getForPost post with
    | .ok entries => entries.startUploads ++ entries.stopUploads ++ entries.deleteFileMessages
    | .error _ => []

theorem appendElements_apply (m : String → List ExportElement) (c : String)
    (es : List ExportElement) (c2 : String) :
    appendElements m c es c2 = if c2 = c then m c2 ++ es else m c2 := by
  unfold appendElements
  by_cases h : c2 = c <;> simp [h]

theorem runPass_elements (parseProps : String → Option (List String))
    (getForPost : String → Except String (List FileInfo)) :
    ∀ (posts : List (Option MessageExport)) (st st2 : PassState),
      runPass parseProps getForPost posts st = .ok st2 → ∀ c,
        st2.elementsByChannel c =
          st.elementsByChannel c ++
            ((posts.filterMap id).filter (fun p => p.ChannelId == c)).flatMap
              (postElements parseProps getForPost) := by
  intro posts
  induction posts with
  | nil =>
    intro st st2 h c
    simp only [runPass, Except.ok.injEq] at h
    subst h
    simp
  | cons o rest ih =>
    intro st st2 h c
    cases o with
    | none =>
      simp only [runPass] at h
      simpa using ih st st2 h c
    | some post =>
      simp only [runPass] at h
      cases hp : processPost parseProps getForPost st post with
      | error err => rw [hp] at h; cases h
      | ok st1 =>
        rw [hp] at h
        have hrest := ih st1 st2 h c
        unfold processPost at hp
        cases ha : postToAttachmentsEntries getForPost post with
        | error err => rw [ha] at hp; cases hp
        | ok entries =>
          rw [ha] at hp
          simp only [Except.ok.injEq] at hp
          subst hp
          simp only [hrest]
          simp only [appendElements_apply, postElements, ha]
          by_cases hc : post.ChannelId = c
          · have hb : (post.ChannelId == c) = true := beq_iff_eq.mpr hc
            simp [hc, hb, postElements, ha, List.append_assoc]
          · have hb : (post.ChannelId == c) = false := by
              simpa using hc
            simp [hb, Ne.symm hc]

/-- Claim C3: (i) after the single input pass, each channel's element slice is the
concatenation, in encounter order, of the elements generated for its non-nil records —
content events are never re-sorted; (ii) a built transcript carries the element slice
unchanged, its upload-slices are empty, and its serialized event order is join events,
then the element slice, then leave events. -/
theorem claim_C3 :
    (∀ (parseProps : String → Option (List String))
        (getForPost : String → Except String (List FileInfo))
        (posts : List (Option MessageExport)) (st2 : PassState),
        runPass parseProps getForPost posts initialPassState = .ok st2 → ∀ c,
          st2.elementsByChannel c =
            ((posts.filterMap id).filter (fun p => p.ChannelId == c)).flatMap
              (postElements parseProps getForPost)) ∧
    (∀ (sjOrder : SJMap → List String)
        (getHistory : Int → Int → String → Except String (List ChannelMemberHistoryRow))
        (getJoinsAndLeaves :
          Int → Int → List ChannelMemberHistoryRow → ChannelMembers →
            List JoinInfo × List LeaveInfo)
        (channel : MetadataChannel) (members : ChannelMembers)
        (elements : List ExportElement) (ce : ChannelExport),
        buildChannelExport sjOrder getHistory getJoinsAndLeaves channel members elements =
          .ok ce →
        ce.Elements = elements ∧ ce.UploadStarts = [] ∧ ce.UploadStops = [] ∧
        eventSequence ce =
          ce.JoinEvents.map TranscriptItem.joined ++ elements.map TranscriptItem.element ++
            ce.LeaveEvents.map TranscriptItem.left) := by
  constructor
  · intro parseProps getForPost posts st2 h c
    have := runPass_elements parseProps getForPost posts initialPassState st2 h c
    simpa [initialPassState] using this
  · intro sjOrder getHistory getJoinsAndLeaves channel members elements ce h
    unfold buildChannelExport at h
    cases hh : getHistory channel.StartTime channel.EndTime channel.ChannelId with
    | error cause => rw [hh] at h; cases h
    | ok rows =>
      rw [hh] at h
      simp only [Except.ok.injEq] at h
      subst h
      refine ⟨rfl, rfl, rfl, ?_⟩
      simp [eventSequence]

def c3Post : MessageExport :=
  { ChannelId := "cid"
    ChannelName := "cn"
    ChannelDisplayName := "dn"
    ChannelType := "O"
    PostId := "p1"
    UserId := "u1"
    UserEmail := "a"
    Username := "ua"
    IsBot := false
    PostCreateAt := 3
    PostDeleteAt := none
    PostProps := none
    PostMessage := "hello"
    PostFileIds := []
    PreviewId := "" }

/-- Concrete instantiation of both parts of `claim_C3`. -/
theorem claim_C3_witness :
    (∃ st2, runPass (fun _ => none) (fun _ => .ok []) [some c3Post] initialPassState = .ok st2 ∧
      st2.elementsByChannel "cid" =
        (([some c3Post].filterMap id).filter (fun p => p.ChannelId == "cid")).flatMap
          (postElements (fun _ => none) (fun _ => .ok []))) ∧
    eventSequence c2Expected =
      c2Expected.JoinEvents.map TranscriptItem.joined ++
        ([] : List ExportElement).map TranscriptItem.element ++
        c2Expected.LeaveEvents.map TranscriptItem.left := by
  constructor
  · refine ⟨_, rfl, ?_⟩
    exact claim_C3.1 (fun _ => none) (fun _ => .ok []) [some c3Post] _ rfl "cid"
  · exact (claim_C3.2 (fun m => alistKeys m) (fun _ _ _ => .ok []) (fun _ _ _ _ => ([], []))
      c2Channel [] [] c2Expected rfl).2.2.2

/-! ### The classifier's synthetic delete entry (claim C4) -/

def c4Post : MessageExport :=
  { c3Post with PostDeleteAt := some 0, PostProps := some "props" }

def c4Parse : String → Option (List String) := fun _ => some [PostPropsDeleteBy]

/-- Claim C4 counterexample: a record whose deletion-timestamp field is present but
zero, with a properties blob that parses and contains the deleted-by marker key,
produces exactly one content event — not the additional synthetic delete event the
claim requires for every record that "carries a deletion timestamp" (the code
additionally requires `*post.PostDeleteAt > 0`, line 124). -/
theorem claim_C4_counterexample :
    c4Post.PostDeleteAt = some 0 ∧ c4Post.PostProps = some "props" ∧
    c4Parse "props" = some [PostPropsDeleteBy] ∧ PostPropsDeleteBy ∈ [PostPropsDeleteBy] ∧
    classifyPost c4Parse c4Post =
      [ExportElement.post (postToExportEntry c4Post c4Post.PostCreateAt c4Post.PostMessage)] :=
  ⟨rfl, rfl, rfl, List.mem_singleton.mpr rfl, rfl⟩

/-- Claim C4 (amended): for every record that carries a strictly positive deletion
timestamp and whose properties blob parses as a key/value mapping containing the
deleted-by marker key, the classifier emits one additional content event at the
deletion timestamp whose text is "delete " prepended to the original message; for a
record whose deletion-timestamp field is absent or not strictly positive, whose blob
is absent or lacks the marker key, or whose blob is unparseable, exactly one content
event (the message body) is emitted.  No case raises an error: `classifyPost` is a
total function into event lists. -/
theorem claim_C4_amended (parseProps : String → Option (List String)) (post : MessageExport) :
    (∀ (d : Int) (blob : String) (keys : List String),
        post.PostDeleteAt = some d → d > 0 → post.PostProps = some blob →
        parseProps blob = some keys → PostPropsDeleteBy ∈ keys →
        classifyPost parseProps post =
          [ExportElement.post (postToExportEntry post post.PostCreateAt post.PostMessage),
            ExportElement.post (postToExportEntry post d ("delete " ++ post.PostMessage))]) ∧
    ((post.PostDeleteAt = none ∨ (∃ d, post.PostDeleteAt = some d ∧ ¬ d > 0) ∨
        post.PostProps = none ∨
        (∃ blob, post.PostProps = some blob ∧
          (parseProps blob = none ∨
            ∃ keys, parseProps blob = some keys ∧ PostPropsDeleteBy ∉ keys))) →
      classifyPost parseProps post =
        [ExportElement.post (postToExportEntry post post.PostCreateAt post.PostMessage)]) := by
  constructor
  · intro d blob keys hd hpos hblob hparse hkey
    unfold classifyPost
    simp [hd, hpos, hblob, hparse, hkey]
  · rintro (h | ⟨d, hd, hneg⟩ | h | ⟨blob, hblob, hcase⟩)
    · simp [classifyPost, h]
    · simp [classifyPost, hd, hneg]
    · cases hda : post.PostDeleteAt with
      | none => simp [classifyPost, hda]
      | some d =>
        by_cases hdp : d > 0
        · simp [classifyPost, hda, hdp, h]
        · simp [classifyPost, hda, hdp]
    · cases hda : post.PostDeleteAt with
      | none => simp [classifyPost, hda]
      | some d =>
        by_cases hdp : d > 0
        · rcases hcase with hparse | ⟨keys, hparse, hkey⟩
          · simp [classifyPost, hda, hdp, hblob, hparse]
          · simp [classifyPost, hda, hdp, hblob, hparse, hkey]
        · simp [classifyPost, hda, hdp]

/-- Concrete instantiation of the single-event case of `claim_C4_amended`. -/
theorem claim_C4_amended_witness :
    classifyPost c4Parse c3Post =
      [ExportElement.post (postToExportEntry c3Post c3Post.PostCreateAt c3Post.PostMessage)] :=
  (claim_C4_amended c4Parse c3Post).2 (Or.inl rfl)

/-! ### Attachment lifecycle entries (claims C5 and C6) -/

/-- Closed form of `postToAttachmentsEntries` on the success path. -/
theorem postToAttachmentsEntries_ok (getForPost : String → Except String (List FileInfo))
    (post : MessageExport) (fileInfos : List FileInfo) (hne : post.PostFileIds ≠ [])
    (hok : getForPost post.PostId = .ok fileInfos) :
    postToAttachmentsEntries getForPost post =
      .ok
        { startUploads := fileInfos.map fun fi => ExportElement.uploadStart (startEntry post fi)
          stopUploads := fileInfos.map fun fi => ExportElement.uploadStop (stopEntry post fi)
          uploadedFiles := fileInfos
          deleteFileMessages := fileInfos.filterMap (deleteEntry post) } := by
  unfold postToAttachmentsEntries
  have hlen : ¬ post.PostFileIds.length = 0 := by
    simpa [List.length_eq_zero] using hne
  rw [if_neg hlen, hok]
  simp [attachmentLoop_eq]

/-- Claim C5: with zero attached file ids the attachment generator returns empty lists
and no error; with attachments, each resolved file info yields exactly one start and
one stop entry, both timestamped at the message creation time, the stop entry always
carrying status "Completed". -/
theorem claim_C5 :
    (∀ (getForPost : String → Except String (List FileInfo)) (post : MessageExport),
        post.PostFileIds = [] →
        postToAttachmentsEntries getForPost post = .ok ⟨[], [], [], []⟩) ∧
    (∀ (getForPost : String → Except String (List FileInfo)) (post : MessageExport)
        (fileInfos : List FileInfo),
        post.PostFileIds ≠ [] → getForPost post.PostId = .ok fileInfos →
        postToAttachmentsEntries getForPost post =
          .ok
            { startUploads := fileInfos.map fun fi => ExportElement.uploadStart (startEntry post fi)
              stopUploads := fileInfos.map fun fi => ExportElement.uploadStop (stopEntry post fi)
              uploadedFiles := fileInfos
              deleteFileMessages := fileInfos.filterMap (deleteEntry post) }) ∧
    (∀ (post : MessageExport) (fi : FileInfo),
        (startEntry post fi).UploadStartTime = post.PostCreateAt ∧
        (stopEntry post fi).UploadStopTime = post.PostCreateAt ∧
        (stopEntry post fi).Status = "Completed") := by
  refine ⟨?_, postToAttachmentsEntries_ok, fun post fi => ⟨rfl, rfl, rfl⟩⟩
  intro gfp post h
  unfold postToAttachmentsEntries
  simp [h]

/-- Concrete instantiation of the empty-attachments case of `claim_C5`. -/
theorem claim_C5_witness :
    postToAttachmentsEntries (fun _ => .ok []) c3Post = .ok ⟨[], [], [], []⟩ :=
  claim_C5.1 (fun _ => .ok []) c3Post rfl

/-- Claim C6: an attachment's "delete <file path>" entry is produced if and only if
the attachment's own deletion time is set (nonzero) and the owning message's
deletion-timestamp field is present, and it is timestamped at the message's deletion
timestamp. -/
theorem claim_C6 :
    (∀ (getForPost : String → Except String (List FileInfo)) (post : MessageExport)
        (fileInfos : List FileInfo) (entries : AttachmentEntries),
        post.PostFileIds ≠ [] → getForPost post.PostId = .ok fileInfos →
        postToAttachmentsEntries getForPost post = .ok entries →
        entries.deleteFileMessages = fileInfos.filterMap (deleteEntry post)) ∧
    (∀ (post : MessageExport) (fi : FileInfo),
        (deleteEntry post fi).isSome ↔ fi.DeleteAt > 0 ∧ post.PostDeleteAt.isSome) ∧
    (∀ (post : MessageExport) (fi : FileInfo) (d : Int),
        post.PostDeleteAt = some d → fi.DeleteAt > 0 →
        deleteEntry post fi =
          some (ExportElement.post (postToExportEntry post d ("delete " ++ fi.Path)))) := by
  refine ⟨?_, ?_, ?_⟩
  · intro gfp post fis entries hne hok hres
    rw [postToAttachmentsEntries_ok gfp post fis hne hok] at hres
    simp only [Except.ok.injEq] at hres
    subst hres
    rfl
  · intro post fi
    unfold deleteEntry
    by_cases hdp : fi.DeleteAt > 0
    · cases hda : post.PostDeleteAt <;> simp [hdp, hda]
    · simp [hdp]
  · intro post fi d hda hdp
    unfold deleteEntry
    simp [hda, hdp]

/-- Concrete instantiation of `claim_C6` exercising both the emitted and the omitted
case. -/
theorem claim_C6_witness :
    (deleteEntry { c3Post with PostDeleteAt := some 7 } ⟨"n", "p", 4⟩).isSome ∧
    ¬ (deleteEntry c3Post ⟨"n", "p", 4⟩).isSome ∧
    deleteEntry { c3Post with PostDeleteAt := some 7 } ⟨"n", "p", 4⟩ =
      some (ExportElement.post
        (postToExportEntry { c3Post with PostDeleteAt := some 7 } 7 ("delete " ++ "p"))) := by
  refine ⟨?_, ?_, ?_⟩
  · exact (claim_C6.2.1 { c3Post with PostDeleteAt := some 7 } ⟨"n", "p", 4⟩).mpr
      ⟨by decide, rfl⟩
  · intro h
    have := (claim_C6.2.1 c3Post ⟨"n", "p", 4⟩).mp h
    simp [c3Post] at this
  · exact claim_C6.2.2 { c3Post with PostDeleteAt := some 7 } ⟨"n", "p", 4⟩ 7 rfl (by decide)

/-! ### Fatality of store-lookup failures (claim C7) -/

theorem postToAttachmentsEntries_error_iff (getForPost : String → Except String (List FileInfo))
    (post : MessageExport) (e : AppError) :
    postToAttachmentsEntries getForPost post = .error e ↔
      post.PostFileIds ≠ [] ∧ ∃ cause, getForPost post.PostId = .error cause ∧
        e = ⟨"ent.message_export.actiance_export.get_attachment_error", cause⟩ := by
  unfold postToAttachmentsEntries
  by_cases h : post.PostFileIds.length = 0
  · simp [h, List.length_eq_zero.mp h]
  · rw [if_neg h]
    have hne : post.PostFileIds ≠ [] := by
      intro hh
      exact h (by simp [hh])
    cases hg : getForPost post.PostId with
    | error cause => simp [hg, hne, eq_comm]
    | ok fis => simp [hg, hne]

theorem processPost_error_iff (parseProps : String → Option (List String))
    (getForPost : String → Except String (List FileInfo)) (st : PassState)
    (post : MessageExport) (e : AppError) :
    processPost parseProps getForPost st post = .error e ↔
      postToAttachmentsEntries getForPost post = .error e := by
  unfold processPost
  cases h : postToAttachmentsEntries getForPost post <;> simp [h]

theorem runPass_error_of_failing (parseProps : String → Option (List String))
    (getForPost : String → Except String (List FileInfo)) (p : MessageExport) (cause : String)
    (hfile : p.PostFileIds ≠ []) (hfail : getForPost p.PostId = .error cause) :
    ∀ posts : List (Option MessageExport), (some p) ∈ posts → ∀ st : PassState, ∃ e,
      runPass parseProps getForPost posts st = .error e ∧
      e.id = "ent.message_export.actiance_export.get_attachment_error" ∧
      ∃ q : MessageExport, (some q) ∈ posts ∧ q.PostFileIds ≠ [] ∧
        getForPost q.PostId = .error e.cause := by
  intro posts
  induction posts with
  | nil => intro hmem; cases hmem
  | cons o rest ih =>
    intro hmem st
    cases o with
    | none =>
      have hmem2 : (some p) ∈ rest := by
        rcases List.mem_cons.mp hmem with h | h
        · cases h
        · exact h
      rcases ih hmem2 st with ⟨e, h1, h2, q, hq1, hq2, hq3⟩
      exact ⟨e, by simpa [runPass] using h1, h2, q, List.mem_cons_of_mem _ hq1, hq2, hq3⟩
    | some q0 =>
      cases hp : processPost parseProps getForPost st q0 with
      | error err =>
        have herr := (processPost_error_iff parseProps getForPost st q0 err).mp hp
        rcases (postToAttachmentsEntries_error_iff getForPost q0 err).mp herr with
          ⟨hq0file, cause0, hgq0, herre⟩
        refine ⟨err, by simp [runPass, hp], by rw [herre], q0, List.mem_cons_self _ _,
          hq0file, ?_⟩
        rw [herre]
        exact hgq0
      | ok st1 =>
        have hmem2 : (some p) ∈ rest := by
          rcases List.mem_cons.mp hmem with h | h
          · exfalso
            injection h with h
            subst h
            have herr : postToAttachmentsEntries getForPost p =
                .error ⟨"ent.message_export.actiance_export.get_attachment_error", cause⟩ :=
              (postToAttachmentsEntries_error_iff getForPost p _).mpr
                ⟨hfile, cause, hfail, rfl⟩
            unfold processPost at hp
            rw [herr] at hp
            cases hp
          · exact h
        rcases ih hmem2 st1 with ⟨e, h1, h2, q, hq1, hq2, hq3⟩
        exact ⟨e, by simp [runPass, hp, h1], h2, q, List.mem_cons_of_mem _ hq1, hq2, hq3⟩

theorem buildChannelExport_error_iff (sjOrder : SJMap → List String)
    (getHistory : Int → Int → String → Except String (List ChannelMemberHistoryRow))
    (getJoinsAndLeaves :
      Int → Int → List ChannelMemberHistoryRow → ChannelMembers → List JoinInfo × List LeaveInfo)
    (channel : MetadataChannel) (members : ChannelMembers) (elements : List ExportElement)
    (e : AppError) :
    buildChannelExport sjOrder getHistory getJoinsAndLeaves channel members elements =
        .error e ↔
      ∃ cause, getHistory channel.StartTime channel.EndTime channel.ChannelId = .error cause ∧
        e = ⟨"ent.get_users_in_channel_during", cause⟩ := by
  unfold buildChannelExport
  cases hh : getHistory channel.StartTime channel.EndTime channel.ChannelId with
  | error cause => simp [hh, eq_comm]
  | ok rows => simp [hh]

theorem buildChannels_error_of_failing (sjOrder : SJMap → List String)
    (getHistory : Int → Int → String → Except String (List ChannelMemberHistoryRow))
    (getJoinsAndLeaves :
      Int → Int → List ChannelMemberHistoryRow → ChannelMembers → List JoinInfo × List LeaveInfo)
    (st : PassState) (mc : MetadataChannel) (cid cause : String)
    (hfail : getHistory mc.StartTime mc.EndTime mc.ChannelId = .error cause) :
    ∀ channels : List (String × MetadataChannel), (cid, mc) ∈ channels →
      ∀ acc : List ChannelExport, ∃ e,
        buildChannels sjOrder getHistory getJoinsAndLeaves st channels acc = .error e ∧
        e.id = "ent.get_users_in_channel_during" ∧
        ∃ cid2 mc2, (cid2, mc2) ∈ channels ∧
          getHistory mc2.StartTime mc2.EndTime mc2.ChannelId = .error e.cause := by
  intro channels
  induction channels with
  | nil => intro hmem; cases hmem
  | cons pr rest ih =>
    intro hmem acc
    obtain ⟨cid0, mc0⟩ := pr
    cases hb : buildChannelExport sjOrder getHistory getJoinsAndLeaves mc0
        ((alistLookup st.membersByChannel mc0.ChannelId).getD [])
        (st.elementsByChannel mc0.ChannelId) with
    | error err =>
      rcases (buildChannelExport_error_iff sjOrder getHistory getJoinsAndLeaves mc0 _ _ err).mp
          hb with ⟨cause0, hg0, herre⟩
      refine ⟨err, by simp [buildChannels, hb], by rw [herre], cid0, mc0,
        List.mem_cons_self _ _, ?_⟩
      rw [herre]
      exact hg0
    | ok ce =>
      have hmem2 : (cid, mc) ∈ rest := by
        rcases List.mem_cons.mp hmem with h | h
        · exfalso
          have hmc : mc = mc0 := congrArg Prod.snd h
          subst hmc
          have herr : buildChannelExport sjOrder getHistory getJoinsAndLeaves mc
              ((alistLookup st.membersByChannel mc.ChannelId).getD [])
              (st.elementsByChannel mc.ChannelId) =
              .error ⟨"ent.get_users_in_channel_during", cause⟩ :=
            (buildChannelExport_error_iff sjOrder getHistory getJoinsAndLeaves mc _ _ _).mpr
              ⟨cause, hfail, rfl⟩
          rw [herr] at hb
          cases hb
        · exact h
      rcases ih hmem2 (acc ++ [ce]) with ⟨e, h1, h2, cid2, mc2, hq1, hq2⟩
      exact ⟨e, by simp [buildChannels, hb, h1], h2, cid2, mc2,
        List.mem_cons_of_mem _ hq1, hq2⟩

/-- Claim C7: a failing store lookup — attachment metadata for a record with attached
files, or membership history for a channel — makes the whole job return immediately
with an error wrapping the store's cause, the Go named return `warningCount` still `0`,
and an empty write trace: no transcript document, attachment copy, or warning manifest
is written. -/
theorem claim_C7 :
    (∀ (parseProps : String → Option (List String))
        (getForPost : String → Except String (List FileInfo))
        (getHistory : Int → Int → String → Except String (List ChannelMemberHistoryRow))
        (getJoinsAndLeaves :
          Int → Int → List ChannelMemberHistoryRow → ChannelMembers →
            List JoinInfo × List LeaveInfo)
        (sjOrder : SJMap → List String) (marshalOk : Bool)
        (exportBackend fileAttachmentBackend : FileBackend) (exportDirectory : String)
        (posts : List (Option MessageExport)) (p : MessageExport) (cause : String),
        (some p) ∈ posts → p.PostFileIds ≠ [] → getForPost p.PostId = .error cause →
        ∃ e, ActianceExport parseProps getForPost getHistory getJoinsAndLeaves sjOrder
            marshalOk exportBackend fileAttachmentBackend exportDirectory posts =
            ((0, some e), []) ∧
          e.id = "ent.message_export.actiance_export.get_attachment_error" ∧
          ∃ q : MessageExport, (some q) ∈ posts ∧ q.PostFileIds ≠ [] ∧
            getForPost q.PostId = .error e.cause) ∧
    (∀ (parseProps : String → Option (List String))
        (getForPost : String → Except String (List FileInfo))
        (getHistory : Int → Int → String → Except String (List ChannelMemberHistoryRow))
        (getJoinsAndLeaves :
          Int → Int → List ChannelMemberHistoryRow → ChannelMembers →
            List JoinInfo × List LeaveInfo)
        (sjOrder : SJMap → List String) (marshalOk : Bool)
        (exportBackend fileAttachmentBackend : FileBackend) (exportDirectory : String)
        (posts : List (Option MessageExport)) (st : PassState) (cid : String)
        (mc : MetadataChannel) (cause : String),
        runPass parseProps getForPost posts initialPassState = .ok st →
        (cid, mc) ∈ st.metadataChannels →
        getHistory mc.StartTime mc.EndTime mc.ChannelId = .error cause →
        ∃ e, ActianceExport parseProps getForPost getHistory getJoinsAndLeaves sjOrder
            marshalOk exportBackend fileAttachmentBackend exportDirectory posts =
            ((0, some e), []) ∧
          e.id = "ent.get_users_in_channel_during" ∧
          ∃ cid2 mc2, (cid2, mc2) ∈ st.metadataChannels ∧
            getHistory mc2.StartTime mc2.EndTime mc2.ChannelId = .error e.cause) := by
  constructor
  · intro parseProps getForPost getHistory getJoinsAndLeaves sjOrder marshalOk eb fab dir
      posts p cause hmem hfile hfail
    rcases runPass_error_of_failing parseProps getForPost p cause hfile hfail posts hmem
        initialPassState with ⟨e, h1, h2, q, hq1, hq2, hq3⟩
    exact ⟨e, by simp [ActianceExport, h1], h2, q, hq1, hq2, hq3⟩
  · intro parseProps getForPost getHistory getJoinsAndLeaves sjOrder marshalOk eb fab dir
      posts st cid mc cause hrun hmem hfail
    rcases buildChannels_error_of_failing sjOrder getHistory getJoinsAndLeaves st mc cid cause
        hfail st.metadataChannels hmem [] with ⟨e, h1, h2, cid2, mc2, hq1, hq2⟩
    exact ⟨e, by simp [ActianceExport, hrun, h1], h2, cid2, mc2, hq1, hq2⟩

def c7Post : MessageExport := { c3Post with PostFileIds := ["f1"] }

/-- Concrete instantiation of the attachment-lookup part of `claim_C7`. -/
theorem claim_C7_witness :
    ∃ e, ActianceExport (fun _ => none) (fun _ => .error "store down")
        (fun _ _ _ => .ok []) (fun _ _ _ _ => ([], [])) (fun m => alistKeys m) true
        ⟨fun _ => true, fun _ => true⟩ ⟨fun _ => true, fun _ => true⟩ "dir"
        [some c7Post] = ((0, some e), []) ∧
      e.id = "ent.message_export.actiance_export.get_attachment_error" ∧
      ∃ q : MessageExport, (some q) ∈ [some c7Post] ∧ q.PostFileIds ≠ [] ∧
        (fun _ => Except.error "store down" :
          String → Except String (List FileInfo)) q.PostId = .error e.cause :=
  claim_C7.1 (fun _ => none) (fun _ => .error "store down") (fun _ _ _ => .ok [])
    (fun _ _ _ _ => ([], [])) (fun m => alistKeys m) true
    ⟨fun _ => true, fun _ => true⟩ ⟨fun _ => true, fun _ => true⟩ "dir"
    [some c7Post] c7Post "store down" (List.mem_singleton.mpr rfl) (by simp [c7Post]) rfl

/-! ### Delivery behaviour (claims C8 and C10) -/

theorem copyFiles_no_fatal (eb fab : FileBackend) (dir : String) :
    ∀ files : List FileInfo,
      (∀ fi ∈ files, fab.readOk fi.Path = true → eb.writeOk (pathJoin dir fi.Path) = true) →
      ∀ (missing : List String) (writes : List WriteOp),
        copyFiles eb fab dir files missing writes =
          ((missing ++ (files.filter fun fi => !(fab.readOk fi.Path)).map
              (fun fi => warningLine fi.Path),
            writes ++ (files.filter fun fi => fab.readOk fi.Path).map
              (fun fi => WriteOp.attachmentCopy (pathJoin dir fi.Path))), none) := by
  intro files
  induction files with
  | nil => intro _ missing writes; simp [copyFiles]
  | cons fi rest ih =>
    intro h missing writes
    have ih2 := ih fun g hg hgr => h g (List.mem_cons_of_mem _ hg) hgr
    cases hr : fab.readOk fi.Path with
    | true =>
      have hw := h fi (List.mem_cons_self _ _) hr
      simp [copyFiles, hr, hw, ih2, List.append_assoc]
    | false =>
      simp [copyFiles, hr, ih2, List.append_assoc]

theorem copyFiles_fatal (eb fab : FileBackend) (dir : String) (fi : FileInfo)
    (hr : fab.readOk fi.Path = true) (hw : eb.writeOk (pathJoin dir fi.Path) = false) :
    ∀ pre : List FileInfo,
      (∀ g ∈ pre, fab.readOk g.Path = true → eb.writeOk (pathJoin dir g.Path) = true) →
      ∀ (rest : List FileInfo) (missing : List String) (writes : List WriteOp),
        copyFiles eb fab dir (pre ++ fi :: rest) missing writes =
          ((missing ++ (pre.filter fun g => !(fab.readOk g.Path)).map
              (fun g => warningLine g.Path),
            writes ++ (pre.filter fun g => fab.readOk g.Path).map
              (fun g => WriteOp.attachmentCopy (pathJoin dir g.Path))),
            some ⟨"ent.actiance.export.write_file.appError", "copy"⟩) := by
  intro pre
  induction pre with
  | nil =>
    intro _ rest missing writes
    simp [copyFiles, hr, hw]
  | cons g pre2 ih =>
    intro hpre rest missing writes
    have ih2 := ih fun g2 hg hgr2 => hpre g2 (List.mem_cons_of_mem _ hg) hgr2
    cases hgr : fab.readOk g.Path with
    | true =>
      have hgw := hpre g (List.mem_cons_self _ _) hgr
      simp [copyFiles, hgr, hgw, ih2, List.append_assoc]
    | false =>
      simp [copyFiles, hgr, ih2, List.append_assoc]

/-- Claim C8: during delivery with a healthy destination backend, (i) every uploaded
file whose read fails contributes one `"Warning:<reason> - <path>"` line and processing
continues; the main document is written first and is unaffected; the returned warning
count equals the number of unreadable files; and the warning manifest — holding exactly
those lines joined by newlines — is written if and only if at least one warning was
recorded; (ii) a failed copy of a successfully opened file is fatal: the function
returns an error. -/
theorem claim_C8 :
    (∀ (exportBackend fileAttachmentBackend : FileBackend) (root : RootNode)
        (files : List FileInfo) (dir : String),
        exportBackend.writeOk (pathJoin dir ActianceExportFilename) = true →
        (∀ fi ∈ files, fileAttachmentBackend.readOk fi.Path = true →
          exportBackend.writeOk (pathJoin dir fi.Path) = true) →
        exportBackend.writeOk (pathJoin dir ActianceWarningFilename) = true →
        writeExport true exportBackend fileAttachmentBackend root files dir =
          ((((files.filter fun fi => !(fileAttachmentBackend.readOk fi.Path)).length : Int),
              none),
            WriteOp.mainDoc root (pathJoin dir ActianceExportFilename) ::
              ((files.filter fun fi => fileAttachmentBackend.readOk fi.Path).map
                  (fun fi => WriteOp.attachmentCopy (pathJoin dir fi.Path)) ++
                (if (files.filter fun fi => !(fileAttachmentBackend.readOk fi.Path)) = []
                  then []
                  else [WriteOp.warningManifest
                    (String.intercalate "\n"
                      ((files.filter fun fi => !(fileAttachmentBackend.readOk fi.Path)).map
                        fun fi => warningLine fi.Path))
                    (pathJoin dir ActianceWarningFilename)])))) ∧
    (∀ (exportBackend fileAttachmentBackend : FileBackend) (root : RootNode) (dir : String)
        (pre : List FileInfo) (fi : FileInfo) (rest : List FileInfo),
        exportBackend.writeOk (pathJoin dir ActianceExportFilename) = true →
        (∀ g ∈ pre, fileAttachmentBackend.readOk g.Path = true →
          exportBackend.writeOk (pathJoin dir g.Path) = true) →
        fileAttachmentBackend.readOk fi.Path = true →
        exportBackend.writeOk (pathJoin dir fi.Path) = false →
        ∃ e, (writeExport true exportBackend fileAttachmentBackend root (pre ++ fi :: rest)
            dir).1 = (0, some e)) := by
  constructor
  · intro eb fab root files dir hdoc hcopy hman
    unfold writeExport
    rw [if_pos rfl, if_pos hdoc,
      copyFiles_no_fatal eb fab dir files hcopy [] [WriteOp.mainDoc root _]]
    by_cases hempty : (files.filter fun fi => !(fab.readOk fi.Path)) = []
    · simp [hempty]
    · have hlen : 0 < (files.filter fun fi => !(fab.readOk fi.Path)).length :=
        List.length_pos.mpr hempty
      have hpos : (0 : Int) <
          (((files.filter fun fi => !(fab.readOk fi.Path)).map
            fun fi => warningLine fi.Path).length : Int) := by
        simp only [List.length_map]
        exact_mod_cast hlen
      simp [hempty, hpos, hman, List.length_map]
  · intro eb fab root dir pre fi rest hdoc hpre hr hw
    unfold writeExport
    rw [if_pos rfl, if_pos hdoc,
      copyFiles_fatal eb fab dir fi hr hw pre hpre rest [] [WriteOp.mainDoc root _]]
    exact ⟨_, rfl⟩

def c8Root : RootNode := { XMLNS := XMLNS, Channels := [] }

/-- Concrete instantiation of the no-fatal part of `claim_C8`: one readable and one
unreadable attachment give warning count 1, the main document, one copy, and a
one-line manifest. -/
theorem claim_C8_witness :
    writeExport true ⟨fun _ => true, fun _ => true⟩ ⟨fun _ => true, fun p => p == "good"⟩
        c8Root [⟨"g", "good", 0⟩, ⟨"b", "bad", 0⟩] "d" =
      (((([⟨"g", "good", 0⟩, ⟨"b", "bad", 0⟩].filter
            fun fi : FileInfo => !(fi.Path == "good")).length : Int), none),
        WriteOp.mainDoc c8Root (pathJoin "d" ActianceExportFilename) ::
          (([⟨"g", "good", 0⟩, ⟨"b", "bad", 0⟩].filter
              fun fi : FileInfo => fi.Path == "good").map
              (fun fi => WriteOp.attachmentCopy (pathJoin "d" fi.Path)) ++
            (if ([⟨"g", "good", 0⟩, ⟨"b", "bad", 0⟩].filter
                fun fi : FileInfo => !(fi.Path == "good")) = []
              then []
              else [WriteOp.warningManifest
                (String.intercalate "\n"
                  (([⟨"g", "good", 0⟩, ⟨"b", "bad", 0⟩].filter
                    fun fi : FileInfo => !(fi.Path == "good")).map
                    fun fi => warningLine fi.Path))
                (pathJoin "d" ActianceWarningFilename)]))) :=
  claim_C8.1 ⟨fun _ => true, fun _ => true⟩ ⟨fun _ => true, fun p => p == "good"⟩ c8Root
    [⟨"g", "good", 0⟩, ⟨"b", "bad", 0⟩] "d" rfl (fun _ _ _ => rfl) rfl

/-- Claim C10: when a copy to the destination backend fails, the function returns
warning count `0` together with the fatal error even if warnings had accumulated: the
trace holds only the main document and the earlier successful copies, and in
particular no warning manifest is ever part of it. -/
theorem claim_C10 (exportBackend fileAttachmentBackend : FileBackend) (root : RootNode)
    (dir : String) (pre : List FileInfo) (fi : FileInfo) (rest : List FileInfo)
    (hdoc : exportBackend.writeOk (pathJoin dir ActianceExportFilename) = true)
    (hpre : ∀ g ∈ pre, fileAttachmentBackend.readOk g.Path = true →
      exportBackend.writeOk (pathJoin dir g.Path) = true)
    (hr : fileAttachmentBackend.readOk fi.Path = true)
    (hw : exportBackend.writeOk (pathJoin dir fi.Path) = false) :
    writeExport true exportBackend fileAttachmentBackend root (pre ++ fi :: rest) dir =
      ((0, some ⟨"ent.actiance.export.write_file.appError", "copy"⟩),
        WriteOp.mainDoc root (pathJoin dir ActianceExportFilename) ::
          (pre.filter fun g => fileAttachmentBackend.readOk g.Path).map
            (fun g => WriteOp.attachmentCopy (pathJoin dir g.Path))) ∧
    ∀ w ∈ (writeExport true exportBackend fileAttachmentBackend root (pre ++ fi :: rest)
        dir).2, ∀ content mpath, w ≠ WriteOp.warningManifest content mpath := by
  have hmain :
      writeExport true exportBackend fileAttachmentBackend root (pre ++ fi :: rest) dir =
        ((0, some ⟨"ent.actiance.export.write_file.appError", "copy"⟩),
          WriteOp.mainDoc root (pathJoin dir ActianceExportFilename) ::
            (pre.filter fun g => fileAttachmentBackend.readOk g.Path).map
              (fun g => WriteOp.attachmentCopy (pathJoin dir g.Path))) := by
    unfold writeExport
    rw [if_pos rfl, if_pos hdoc,
      copyFiles_fatal exportBackend fileAttachmentBackend dir fi hr hw pre hpre rest []
        [WriteOp.mainDoc root _]]
    simp
  refine ⟨hmain, ?_⟩
  rw [hmain]
  intro w hwmem content mpath
  simp only [List.mem_cons, List.mem_map] at hwmem
  rcases hwmem with h | ⟨g, _, h⟩ <;> subst h <;> simp

def c10Pre : List FileInfo := [⟨"m", "miss", 0⟩]

/-- Concrete instantiation of `claim_C10` in which a warning had already accumulated
(the `"miss"` file is unreadable) before the fatal copy failure of `"bad"`. -/
theorem claim_C10_witness :
    writeExport true ⟨fun p => !(p == pathJoin "d" "bad"), fun _ => true⟩
        ⟨fun _ => true, fun p => !(p == "miss")⟩ c8Root
        (c10Pre ++ (⟨"b", "bad", 0⟩ : FileInfo) :: []) "d" =
      ((0, some ⟨"ent.actiance.export.write_file.appError", "copy"⟩),
        WriteOp.mainDoc c8Root (pathJoin "d" ActianceExportFilename) ::
          (c10Pre.filter fun g => !(g.Path == "miss")).map
            (fun g => WriteOp.attachmentCopy (pathJoin "d" g.Path))) :=
  (claim_C10 ⟨fun p => !(p == pathJoin "d" "bad"), fun _ => true⟩
    ⟨fun _ => true, fun p => !(p == "miss")⟩ c8Root "d" c10Pre ⟨"b", "bad", 0⟩ []
    (by decide) (by decide) (by decide) (by decide)).1

end Actiance
